import Mathlib

/-!
Verification of the rust-scheme lexer (src/lexer/lexer.rs, src/lexer/string_lexer.rs,
src/lexer/io_lexer.rs) against its natural-language specification.

The source is shallowly embedded: Rust `String` values are modelled as `List Char`
(the source casts single bytes to `char`, so every character is a single byte);
`u32` position counters are modelled as `Nat` (the counters only ever grow by one
per consumed character, so overflow is immaterial to the stated properties);
fallible scanning (`Result<Token, LexError>`) is modelled with `Except`.
-/

namespace RustScheme

/-- Rust `char::is_whitespace` restricted to the characters this program can ever
see: the source reads single bytes and casts them to `char`, so every character
has a code point below 256.  The Unicode `White_Space` code points in that range
are U+0009..U+000D, U+0020, U+0085 and U+00A0. -/
def rustIsWhitespace (c : Char) : Bool :=
  c.toNat = 9 || c.toNat = 10 || c.toNat = 11 || c.toNat = 12 || c.toNat = 13 ||
    c.toNat = 32 || c.toNat = 133 || c.toNat = 160

/-- Rust `str::trim`: drop leading and trailing whitespace characters. -/
def rustTrim (l : List Char) : List Char :=
  ((l.dropWhile rustIsWhitespace).reverse.dropWhile rustIsWhitespace).reverse

/-- `Lexer::count` (lexer.rs lines 50-63): the position-update rule applied to
every consumed character.  Returns the new `(line, chr)` pair. -/
def count (c : Char) (line chr : Nat) : Nat × Nat :=
  if c = '\n' then (line + 1, 1) else (line, chr + 1)

/-- The `Token` enum of lexer.rs: each variant carries its lexeme (where any)
and the start position `(line, chr)`. -/
inductive Token where
  | LPAR : Nat → Nat → Token
  | RPAR : Nat → Nat → Token
  | COMMENT : List Char → Nat → Nat → Token
  | STRING : List Char → Nat → Nat → Token
  | INTEGER : List Char → Nat → Nat → Token
  | FLOAT : List Char → Nat → Nat → Token
  | IDENT : List Char → Nat → Nat → Token
  deriving DecidableEq

/-- `Token::number` (lexer.rs): choose `FLOAT` or `INTEGER` by the float flag. -/
def Token.number (string : List Char) (is_float : Bool) (line chr : Nat) : Token :=
  if is_float then Token.FLOAT string line chr else Token.INTEGER string line chr

/-- The `LexError` enum of lexer.rs. -/
inductive LexError where
  | INVALID : Char → Nat → Nat → LexError
  | UNTERMINATED : List Char → Nat → Nat → LexError
  | IDENT : List Char → Nat → Nat → LexError
  | INTEGER : List Char → Nat → Nat → LexError
  | FLOAT : List Char → Nat → Nat → LexError
  | END : Nat → Nat → LexError
  deriving DecidableEq

/-- `LexError::number` (lexer.rs): choose `FLOAT` or `INTEGER` by the float flag. -/
def LexError.number (string : List Char) (is_float : Bool) (line chr : Nat) : LexError :=
  if is_float then LexError.FLOAT string line chr else LexError.INTEGER string line chr

/-- The state the trait-generic tokenizer methods of lexer.rs see through the
`Lexer` trait: the stream of characters still to be consumed plus the position
counters.  `StringLexer` (resp. `IOLexer`) realises it with `input`/`index`
(resp. a one-byte lookahead buffer over a reader); the correspondence for
`StringLexer` is proved below (`StringLexer.toLexState_get`). -/
structure LexState where
  rest : List Char
  line : Nat
  chr : Nat
  deriving DecidableEq

/-- Trait `peek`: the next character, without consuming it. -/
def LexState.peek (s : LexState) : Option Char := s.rest.head?

/-- Trait `get`: consume one character and update the position via `count`. -/
def LexState.get (s : LexState) : Option Char × LexState :=
  match s.rest with
  | [] => (none, s)
  | c :: cs => (some c, ⟨cs, (count c s.line s.chr).1, (count c s.line s.chr).2⟩)

namespace Lexer

/-- `Lexer::consume_whitespace` (lexer.rs lines 88-96): consume characters while
the lookahead is whitespace. -/
def consume_whitespace : List Char → Nat → Nat → LexState
  | [], line, chr => ⟨[], line, chr⟩
  | c :: cs, line, chr =>
    if rustIsWhitespace c then
      consume_whitespace cs (count c line chr).1 (count c line chr).2
    else
      ⟨c :: cs, line, chr⟩

/-- `Lexer::lpar`: capture the position and consume the parenthesis. -/
def lpar (s : LexState) : Except LexError Token × LexState :=
  (.ok (.LPAR s.line s.chr), (s.get).2)

/-- `Lexer::rpar`: capture the position and consume the parenthesis. -/
def rpar (s : LexState) : Except LexError Token × LexState :=
  (.ok (.RPAR s.line s.chr), (s.get).2)

/-- The `while let Some(c) = self.get()` loop of `Lexer::comment`: consume up to
and including the first newline, accumulating everything before it. -/
def commentLoop (startLine startChr : Nat) :
    List Char → List Char → Nat → Nat → Except LexError Token × LexState
  | acc, [], line, chr =>
    (.ok (.COMMENT (rustTrim acc) startLine startChr), ⟨[], line, chr⟩)
  | acc, c :: cs, line, chr =>
    if c ≠ '\n' then
      commentLoop startLine startChr (acc ++ [c]) cs (count c line chr).1 (count c line chr).2
    else
      (.ok (.COMMENT (rustTrim acc) startLine startChr),
        ⟨cs, (count c line chr).1, (count c line chr).2⟩)

/-- `Lexer::comment` (lexer.rs lines 111-123). -/
def comment (s : LexState) : Except LexError Token × LexState :=
  commentLoop s.line s.chr [] s.rest s.line s.chr

/-- The scanning loop of `Lexer::string`: a backslash unconditionally takes the
next character verbatim, a raw newline or end of input aborts, a quote closes.
The source's backslash arm performs a second `self.get()` inside one loop
iteration; here that pending second consume is carried by the `esc` flag so
that every recursive step consumes exactly one character (the behaviour is
unchanged: with `esc` set the character just read is appended verbatim). -/
def stringLoop (startLine startChr : Nat) :
    List Char → Bool → List Char → Nat → Nat → Except LexError Token × LexState
  | acc, _, [], line, chr =>
    (.error (.UNTERMINATED acc startLine startChr), ⟨[], line, chr⟩)
  | acc, true, n :: ns, line, chr =>
    stringLoop startLine startChr (acc ++ [n]) false ns
      (count n line chr).1 (count n line chr).2
  | acc, false, c :: cs, line, chr =>
    if c = '\\' then
      stringLoop startLine startChr acc true cs (count c line chr).1 (count c line chr).2
    else if c = '\n' then
      (.error (.UNTERMINATED acc startLine startChr),
        ⟨cs, (count c line chr).1, (count c line chr).2⟩)
    else if c = '\"' then
      (.ok (.STRING acc startLine startChr),
        ⟨cs, (count c line chr).1, (count c line chr).2⟩)
    else
      stringLoop startLine startChr (acc ++ [c]) false cs
        (count c line chr).1 (count c line chr).2

/-- `Lexer::string` (lexer.rs lines 127-148): capture the start position,
consume the opening quotation mark, then scan. -/
def string (s : LexState) : Except LexError Token × LexState :=
  let startLine := s.line
  let startChr := s.chr
  let s1 := (s.get).2
  stringLoop startLine startChr [] false s1.rest s1.line s1.chr

/-- The scanning loop of `Lexer::number`: every consumed character is pushed
onto the lexeme first, then classified (digit / dot / whitespace / other). -/
def numberLoop (startLine startChr : Nat) :
    List Char → Bool → List Char → Nat → Nat → Except LexError Token × LexState
  | acc, float, [], line, chr =>
    (.ok (Token.number (rustTrim acc) float startLine startChr), ⟨[], line, chr⟩)
  | acc, float, c :: cs, line, chr =>
    if '0' ≤ c ∧ c ≤ '9' then
      numberLoop startLine startChr (acc ++ [c]) float cs
        (count c line chr).1 (count c line chr).2
    else if c = '.' then
      if float then
        (.error (.FLOAT (acc ++ [c]) startLine startChr),
          ⟨cs, (count c line chr).1, (count c line chr).2⟩)
      else
        numberLoop startLine startChr (acc ++ [c]) true cs
          (count c line chr).1 (count c line chr).2
    else if rustIsWhitespace c then
      (.ok (Token.number (rustTrim (acc ++ [c])) float startLine startChr),
        ⟨cs, (count c line chr).1, (count c line chr).2⟩)
    else
      (.error (LexError.number (acc ++ [c]) float startLine startChr),
        ⟨cs, (count c line chr).1, (count c line chr).2⟩)

/-- `Lexer::number` (lexer.rs lines 150-179): capture the start position, take
an optional leading minus sign, then scan. -/
def number (s : LexState) : Except LexError Token × LexState :=
  let startLine := s.line
  let startChr := s.chr
  if s.peek = some '-' then
    let s1 := (s.get).2
    numberLoop startLine startChr ['-'] false s1.rest s1.line s1.chr
  else
    numberLoop startLine startChr [] false s.rest s.line s.chr

/-- The `invalid` list of `Lexer::ident`: characters an identifier may not
contain. -/
def invalid : List Char :=
  ['[', ']', '{', '}', '(', ')', '|', '\\', '/', '\'', '\"', '#', ',']

/-- The scanning loop of `Lexer::ident`: a disallowed character fails at once
(consumed, not appended), whitespace terminates, anything else is appended. -/
def identLoop (startLine startChr : Nat) :
    List Char → List Char → Nat → Nat → Except LexError Token × LexState
  | acc, [], line, chr =>
    (.ok (.IDENT acc startLine startChr), ⟨[], line, chr⟩)
  | acc, c :: cs, line, chr =>
    if invalid.contains c then
      (.error (.IDENT acc startLine startChr),
        ⟨cs, (count c line chr).1, (count c line chr).2⟩)
    else if rustIsWhitespace c then
      (.ok (.IDENT acc startLine startChr),
        ⟨cs, (count c line chr).1, (count c line chr).2⟩)
    else
      identLoop startLine startChr (acc ++ [c]) cs (count c line chr).1 (count c line chr).2

/-- `Lexer::ident` (lexer.rs lines 181-198). -/
def ident (s : LexState) : Except LexError Token × LexState :=
  identLoop s.line s.chr [] s.rest s.line s.chr

/-- `Lexer::read_token` (lexer.rs lines 73-86): dispatch on the un-consumed
lookahead character. -/
def read_token (s : LexState) : Except LexError Token × LexState :=
  match s.peek with
  | some c =>
    if c = '(' then lpar s
    else if c = ')' then rpar s
    else if c = ';' then comment s
    else if c = '\"' then string s
    else if ('0' ≤ c ∧ c ≤ '9') ∨ c = '-' ∨ c = '.' then number s
    else if 'A' ≤ c ∧ c ≤ 'z' then ident s
    else (.error (.INVALID c s.line s.chr), s)
  | none => (.error (.END s.line s.chr), s)

/-- `Lexer::next` (lexer.rs lines 65-71): skip whitespace, then either report
end of input or dispatch. -/
def next (s : LexState) : Except LexError Token × LexState :=
  let s1 := consume_whitespace s.rest s.line s.chr
  match s1.peek with
  | none => (.error (.END s1.line s1.chr), s1)
  | some _ => read_token s1

end Lexer

/-- `StringLexer` (string_lexer.rs): an immutable character buffer plus an
index and the position counters. -/
structure StringLexer where
  input : List Char
  index : Nat
  line : Nat
  chr : Nat
  deriving DecidableEq

/-- `StringLexer::new`. -/
def StringLexer.new (input : List Char) : StringLexer :=
  ⟨input, 0, 1, 1⟩

/-- `StringLexer::peek` (string_lexer.rs lines 29-35), embedded as a state
transformer because the source method takes `&mut self`; its body reads
`input[index]` and writes nothing. -/
def StringLexer.peek (s : StringLexer) : Option Char × StringLexer :=
  if h : s.index < s.input.length then (some (s.input.get ⟨s.index, h⟩), s) else (none, s)

/-- `StringLexer::get` (string_lexer.rs lines 18-27): on a successful peek,
advance the index and apply `count`. -/
def StringLexer.get (s : StringLexer) : Option Char × StringLexer :=
  match (s.peek).1 with
  | some c =>
    (some c, { s with index := s.index + 1,
                      line := (count c s.line s.chr).1,
                      chr := (count c s.line s.chr).2 })
  | none => (none, s)

/-- `IOLexer` (io_lexer.rs): the underlying `Read` supply is modelled as the
list of characters it has yet to deliver; `buf` is the one-byte lookahead
buffer and `eof` records an exhausted (or failed) read, which io_lexer.rs
treats identically. -/
structure IOLexer where
  stream : List Char
  buf : Char
  eof : Bool
  line : Nat
  chr : Nat
  deriving DecidableEq

/-- `IOLexer::read_char` (io_lexer.rs lines 20-28): refill the one-byte buffer;
a zero-byte read (or read error) sets `eof` and leaves the buffer alone. -/
def IOLexer.read_char (s : IOLexer) : IOLexer :=
  match s.stream with
  | [] => { s with eof := true }
  | b :: rest => { s with buf := b, stream := rest }

/-- `IOLexer::new` (io_lexer.rs lines 14-18): the buffer starts as byte 0 and
is immediately primed with one read. -/
def IOLexer.new (input : List Char) : IOLexer :=
  IOLexer.read_char ⟨input, Char.ofNat 0, false, 1, 1⟩

/-- `IOLexer::peek` (io_lexer.rs lines 42-48), embedded as a state transformer;
the source method takes `&self`, so the state is returned unchanged. -/
def IOLexer.peek (s : IOLexer) : Option Char × IOLexer :=
  (if s.eof then none else some s.buf, s)

/-- `IOLexer::get` (io_lexer.rs lines 31-40): on a successful peek, refill the
buffer and apply `count`. -/
def IOLexer.get (s : IOLexer) : Option Char × IOLexer :=
  match (s.peek).1 with
  | none => (none, s)
  | some c =>
    let s1 := s.read_char
    (some c, { s1 with line := (count c s1.line s1.chr).1,
                       chr := (count c s1.line s1.chr).2 })

/-- The `LexState` a `StringLexer` denotes: the characters at and after the
current index, plus the position counters. -/
def StringLexer.toLexState (s : StringLexer) : LexState :=
  ⟨s.input.drop s.index, s.line, s.chr⟩

/-- Vocabulary for describing the inside of a string literal: each consumed
unit is either an escape pair (a backslash plus the character it protects) or
a single plain character. -/
inductive StrItem where
  | esc : Char → StrItem
  | plain : Char → StrItem
  deriving DecidableEq

/-- The source characters one item occupies. -/
def StrItem.chars : StrItem → List Char
  | .esc c => ['\\', c]
  | .plain c => [c]

/-- The character one item contributes to the scanned text. -/
def StrItem.payload : StrItem → Char
  | .esc c => c
  | .plain c => c

/-- An item the scanning loop passes through without terminating: any escape
pair qualifies; a plain character must not be a backslash, a raw newline or a
closing quote. -/
def StrItem.ok : StrItem → Bool
  | .esc _ => true
  | .plain c => c ≠ '\\' && c ≠ '\n' && c ≠ '\"'

/-- All source characters of a list of items. -/
def itemsChars : List StrItem → List Char
  | [] => []
  | i :: is => i.chars ++ itemsChars is

/-- The text a list of items accumulates. -/
def itemsText : List StrItem → List Char
  | [] => []
  | i :: is => i.payload :: itemsText is

/-! ### Character-class facts -/

theorem char_le_iff_toNat {a b : Char} : a ≤ b ↔ a.toNat ≤ b.toNat := Iff.rfl

theorem ws_toNat {c : Char} (h : rustIsWhitespace c = true) :
    c.toNat = 9 ∨ c.toNat = 10 ∨ c.toNat = 11 ∨ c.toNat = 12 ∨ c.toNat = 13 ∨
      c.toNat = 32 ∨ c.toNat = 133 ∨ c.toNat = 160 := by
  simpa [rustIsWhitespace, Bool.or_eq_true, decide_eq_true_eq, or_assoc] using h

theorem ws_not_digit {c : Char} (h : rustIsWhitespace c = true) :
    ¬('0' ≤ c ∧ c ≤ '9') := by
  rintro ⟨h1, h2⟩
  rw [char_le_iff_toNat] at h1 h2
  have e0 : ('0').toNat = 48 := rfl
  have e9 : ('9').toNat = 57 := rfl
  rw [e0] at h1
  rw [e9] at h2
  have := ws_toNat h
  omega

theorem ws_ne_dot {c : Char} (h : rustIsWhitespace c = true) : c ≠ '.' := by
  intro hc
  subst hc
  simp [rustIsWhitespace] at h

theorem digit_not_ws {c : Char} (h : '0' ≤ c ∧ c ≤ '9') :
    rustIsWhitespace c = false := by
  rcases h with ⟨h1, h2⟩
  rw [char_le_iff_toNat] at h1 h2
  have e0 : ('0').toNat = 48 := rfl
  have e9 : ('9').toNat = 57 := rfl
  rw [e0] at h1
  rw [e9] at h2
  rcases hw : rustIsWhitespace c with _ | _
  · rfl
  · have := ws_toNat hw
    omega

theorem digit_ne_dot {c : Char} (h : '0' ≤ c ∧ c ≤ '9') : c ≠ '.' := by
  rcases h with ⟨h1, h2⟩
  rw [char_le_iff_toNat] at h1 h2
  have e0 : ('0').toNat = 48 := rfl
  have e9 : ('9').toNat = 57 := rfl
  rw [e0] at h1
  rw [e9] at h2
  intro hc
  have h46 : c.toNat = 46 := congrArg Char.toNat hc
  omega

/-! ### Trimming facts -/

theorem dropWhile_eq_self_of_not {p : Char → Bool} {l : List Char}
    (h : ∀ c ∈ l, p c = false) : l.dropWhile p = l := by
  cases l with
  | nil => rfl
  | cons c cs => simp [List.dropWhile_cons, h c (List.mem_cons_self c cs)]

theorem rustTrim_of_not_ws {l : List Char}
    (h : ∀ c ∈ l, rustIsWhitespace c = false) : rustTrim l = l := by
  unfold rustTrim
  rw [dropWhile_eq_self_of_not h, dropWhile_eq_self_of_not, List.reverse_reverse]
  intro c hc
  exact h c (List.mem_reverse.mp hc)

theorem rustTrim_append_ws {l : List Char} {w : Char}
    (hw : rustIsWhitespace w = true) : rustTrim (l ++ [w]) = rustTrim l := by
  unfold rustTrim
  rw [List.dropWhile_append]
  rcases hd : (l.dropWhile rustIsWhitespace).isEmpty with _ | _
  · simp only [Bool.false_eq_true, if_false]
    rw [List.reverse_append, List.reverse_singleton, List.singleton_append,
      List.dropWhile_cons, hw]
    simp
  · simp only [if_true]
    rw [List.isEmpty_iff] at hd
    rw [hd]
    simp [List.dropWhile_cons, hw]

/-! ### Whitespace-skipping facts -/

theorem cw_nil (line chr : Nat) : Lexer.consume_whitespace [] line chr = ⟨[], line, chr⟩ :=
  rfl

theorem cw_not_ws (c : Char) (rest : List Char) (line chr : Nat)
    (h : rustIsWhitespace c = false) :
    Lexer.consume_whitespace (c :: rest) line chr = ⟨c :: rest, line, chr⟩ := by
  simp [Lexer.consume_whitespace, h]

theorem cw_append (pre post : List Char) (line chr : Nat)
    (h : ∀ c ∈ pre, rustIsWhitespace c = true) :
    Lexer.consume_whitespace (pre ++ post) line chr =
      Lexer.consume_whitespace post
        (Lexer.consume_whitespace pre line chr).line
        (Lexer.consume_whitespace pre line chr).chr := by
  induction pre generalizing line chr with
  | nil => simp [Lexer.consume_whitespace]
  | cons c cs ih =>
    have hc : rustIsWhitespace c = true := h c (List.mem_cons_self c cs)
    simp only [List.cons_append, Lexer.consume_whitespace, hc, if_true]
    exact ih _ _ fun x hx => h x (List.mem_cons_of_mem c hx)

theorem cw_all_ws_no_newline (l : List Char) (line chr : Nat)
    (h : ∀ c ∈ l, rustIsWhitespace c = true ∧ c ≠ '\n') :
    Lexer.consume_whitespace l line chr = ⟨[], line, chr + l.length⟩ := by
  induction l generalizing chr with
  | nil => simp [Lexer.consume_whitespace]
  | cons c cs ih =>
    obtain ⟨hw, hn⟩ := h c (List.mem_cons_self c cs)
    simp only [Lexer.consume_whitespace, hw, if_true, count, if_neg hn]
    rw [ih _ fun x hx => h x (List.mem_cons_of_mem c hx)]
    have hx : chr + 1 + cs.length = chr + (c :: cs).length := by
      simp only [List.length_cons]
      omega
    rw [hx]

/-! ### Character sources: basic facts -/

theorem StringLexer.toLexState_peek (s : StringLexer) :
    (s.peek).1 = s.toLexState.peek := by
  unfold StringLexer.peek StringLexer.toLexState LexState.peek
  split
  · rename_i h
    rw [List.head?_drop]
    simp [List.getElem?_eq_getElem h]
  · rename_i h
    rw [List.head?_drop]
    simp [List.getElem?_eq_none (Nat.le_of_not_lt h)]

/-- `StringLexer` refines `LexState`: `get` returns the same character on both
sides and the successor states correspond.  This is what justifies proving the
tokenizer-level claims over `LexState`. -/
theorem StringLexer.toLexState_get (s : StringLexer) :
    (s.get).1 = (s.toLexState.get).1 ∧ ((s.get).2).toLexState = (s.toLexState.get).2 := by
  by_cases h : s.index < s.input.length
  · have hdrop : s.input.drop s.index =
        s.input.get ⟨s.index, h⟩ :: s.input.drop (s.index + 1) := by
      rw [List.drop_eq_getElem_cons h]
      simp
    have hpeek : (s.peek).1 = some (s.input.get ⟨s.index, h⟩) := by
      unfold StringLexer.peek
      rw [dif_pos h]
    have hR : s.toLexState.get = (some (s.input.get ⟨s.index, h⟩),
        ⟨s.input.drop (s.index + 1), (count (s.input.get ⟨s.index, h⟩) s.line s.chr).1,
          (count (s.input.get ⟨s.index, h⟩) s.line s.chr).2⟩) := by
      unfold StringLexer.toLexState LexState.get
      rw [hdrop]
    have hL : s.get = (some (s.input.get ⟨s.index, h⟩),
        { s with index := s.index + 1,
                 line := (count (s.input.get ⟨s.index, h⟩) s.line s.chr).1,
                 chr := (count (s.input.get ⟨s.index, h⟩) s.line s.chr).2 }) := by
      unfold StringLexer.get
      rw [hpeek]
    rw [hL, hR]
    exact ⟨rfl, rfl⟩
  · have hdrop : s.input.drop s.index = [] := List.drop_eq_nil_of_le (Nat.le_of_not_lt h)
    have hpeek : (s.peek).1 = none := by
      unfold StringLexer.peek
      rw [dif_neg h]
    have hR : s.toLexState.get = (none, ⟨[], s.line, s.chr⟩) := by
      unfold StringLexer.toLexState LexState.get
      rw [hdrop]
    have hL : s.get = (none, s) := by
      unfold StringLexer.get
      rw [hpeek]
    have hT : s.toLexState = ⟨[], s.line, s.chr⟩ := by
      unfold StringLexer.toLexState
      rw [hdrop]
    rw [hL, hR]
    exact ⟨rfl, hT⟩

theorem IOLexer.read_char_pos (s : IOLexer) :
    s.read_char.line = s.line ∧ s.read_char.chr = s.chr := by
  unfold IOLexer.read_char
  rcases s.stream with _ | ⟨b, rest⟩ <;> exact ⟨rfl, rfl⟩

/-- C1: consuming a character `c` through `get()` on either Character Source
variant updates the counters by the newline rule: a newline increments the
line by exactly one and resets the column to 1; any other character leaves
the line unchanged and increments the column by exactly one. -/
theorem c1_get_position_update :
    (∀ (s s' : StringLexer) (c : Char), s.get = (some c, s') →
      (c = '\n' → s'.line = s.line + 1 ∧ s'.chr = 1) ∧
      (c ≠ '\n' → s'.line = s.line ∧ s'.chr = s.chr + 1)) ∧
    (∀ (s s' : IOLexer) (c : Char), s.get = (some c, s') →
      (c = '\n' → s'.line = s.line + 1 ∧ s'.chr = 1) ∧
      (c ≠ '\n' → s'.line = s.line ∧ s'.chr = s.chr + 1)) := by
  constructor
  · intro s s' c h
    unfold StringLexer.get at h
    rcases hp : (s.peek).1 with _ | c0
    · rw [hp] at h
      simp at h
    · rw [hp] at h
      simp only [Prod.mk.injEq, Option.some.injEq] at h
      obtain ⟨rfl, rfl⟩ := h
      refine ⟨fun hnl => ?_, fun hnl => ?_⟩ <;> simp [count, hnl]
  · intro s s' c h
    unfold IOLexer.get at h
    rcases hp : (s.peek).1 with _ | c0
    · rw [hp] at h
      simp at h
    · rw [hp] at h
      simp only [Prod.mk.injEq, Option.some.injEq] at h
      obtain ⟨rfl, rfl⟩ := h
      have hl := (IOLexer.read_char_pos s).1
      have hc := (IOLexer.read_char_pos s).2
      refine ⟨fun hnl => ?_, fun hnl => ?_⟩ <;> simp [count, hnl, hl, hc]

/-- Witness for C1: one concrete `get` on each variant. -/
theorem c1_witness :
    (('a' = '\n' → (1 : Nat) = 1 + 1 ∧ (2 : Nat) = 1) ∧
      ('a' ≠ '\n' → (1 : Nat) = 1 ∧ (2 : Nat) = 1 + 1)) ∧
    (('b' = '\n' → (1 : Nat) = 1 + 1 ∧ (2 : Nat) = 1) ∧
      ('b' ≠ '\n' → (1 : Nat) = 1 ∧ (2 : Nat) = 1 + 1)) :=
  ⟨c1_get_position_update.1 ⟨['a'], 0, 1, 1⟩ ⟨['a'], 1, 1, 2⟩ 'a' rfl,
   c1_get_position_update.2 ⟨[], 'b', false, 1, 1⟩ ⟨[], 'b', true, 1, 2⟩ 'b' rfl⟩

/-- C9: on both Character Source variants, `peek` leaves the whole source
state unchanged, and a second `peek` with no intervening `get` returns the
same optional character as the first. -/
theorem c9_peek_idempotent :
    (∀ s : StringLexer, (s.peek).2 = s ∧ (((s.peek).2).peek).1 = (s.peek).1) ∧
    (∀ s : IOLexer, (s.peek).2 = s ∧ (((s.peek).2).peek).1 = (s.peek).1) := by
  constructor
  · intro s
    have h2 : (s.peek).2 = s := by
      unfold StringLexer.peek
      split <;> rfl
    exact ⟨h2, by rw [h2]⟩
  · intro s
    exact ⟨rfl, rfl⟩

/-! ### The number scanner -/

theorem digit_ne_minus {c : Char} (h : '0' ≤ c ∧ c ≤ '9') : c ≠ '-' := by
  rcases h with ⟨h1, h2⟩
  rw [char_le_iff_toNat] at h1 h2
  have e0 : ('0').toNat = 48 := rfl
  have e9 : ('9').toNat = 57 := rfl
  rw [e0] at h1
  rw [e9] at h2
  intro hc
  have h45 : c.toNat = 45 := congrArg Char.toNat hc
  omega

theorem numberLoop_digits (sl sc : Nat) :
    ∀ (body acc rest : List Char) (float : Bool) (l k : Nat),
      (∀ c ∈ body, ('0' ≤ c ∧ c ≤ '9') ∨ c = '.') →
      body.count '.' + (if float then 1 else 0) ≤ 1 →
      ∃ l' k', Lexer.numberLoop sl sc acc float (body ++ rest) l k =
        Lexer.numberLoop sl sc (acc ++ body) (float || decide ('.' ∈ body)) rest l' k' := by
  intro body
  induction body with
  | nil =>
    intro acc rest float l k _ _
    exact ⟨l, k, by simp⟩
  | cons c bs ih =>
    intro acc rest float l k hbody hdots
    rcases hbody c (List.mem_cons_self c bs) with hd | hdot
    · have hstep : Lexer.numberLoop sl sc acc float ((c :: bs) ++ rest) l k =
          Lexer.numberLoop sl sc (acc ++ [c]) float (bs ++ rest)
            (count c l k).1 (count c l k).2 := by
        simp only [List.cons_append, Lexer.numberLoop, if_pos hd, List.append_eq]
      have hcount : bs.count '.' + (if float then 1 else 0) ≤ 1 := by
        have hc : (c :: bs).count '.' = bs.count '.' := by
          simp [List.count_cons, (digit_ne_dot hd).symm]
        omega
      obtain ⟨l', k', hloop⟩ :=
        ih (acc ++ [c]) rest float (count c l k).1 (count c l k).2
          (fun x hx => hbody x (List.mem_cons_of_mem c hx)) hcount
      refine ⟨l', k', ?_⟩
      rw [hstep, hloop]
      have hmem : decide ('.' ∈ c :: bs) = decide ('.' ∈ bs) := by
        simp [List.mem_cons, (digit_ne_dot hd).symm]
      rw [List.append_cons acc c bs, hmem]
    · subst hdot
      have hcnt : ('.' :: bs).count '.' = bs.count '.' + 1 := by
        simp [List.count_cons]
      rcases hf : float with _ | _
      · have hstep : Lexer.numberLoop sl sc acc false (('.' :: bs) ++ rest) l k =
            Lexer.numberLoop sl sc (acc ++ ['.']) true (bs ++ rest)
              (count '.' l k).1 (count '.' l k).2 := by
          simp only [List.cons_append, Lexer.numberLoop, List.append_eq]
          rw [if_neg (by decide : ¬(('0' : Char) ≤ '.' ∧ ('.' : Char) ≤ '9'))]
          simp
        have hcount : bs.count '.' + (if true then 1 else 0) ≤ 1 := by
          rw [hf] at hdots
          simp only [if_true]
          simp only [hcnt] at hdots
          omega
        obtain ⟨l', k', hloop⟩ :=
          ih (acc ++ ['.']) rest true (count '.' l k).1 (count '.' l k).2
            (fun x hx => hbody x (List.mem_cons_of_mem '.' hx)) hcount
        refine ⟨l', k', ?_⟩
        rw [hstep, hloop, List.append_cons acc '.' bs]
        have hflag : (true || decide ('.' ∈ bs)) = (false || decide ('.' ∈ '.' :: bs)) := by
          simp [List.mem_cons]
        rw [hflag]
      · exfalso
        rw [hf] at hdots
        simp only [hcnt, if_true] at hdots
        omega

/-- Characters a successfully scanned numeric prefix can contain are never
whitespace. -/
theorem pre_not_ws {sgnl body : List Char}
    (hsgn : sgnl = ['-'] ∨ sgnl = [])
    (hbody : ∀ c ∈ body, ('0' ≤ c ∧ c ≤ '9') ∨ c = '.') :
    ∀ c ∈ sgnl ++ body, rustIsWhitespace c = false := by
  intro c hc
  rcases List.mem_append.mp hc with h1 | h2
  · rcases hsgn with rfl | rfl
    · rw [List.mem_singleton.mp h1]
      rfl
    · cases h1
  · rcases hbody c h2 with hd | rfl
    · exact digit_not_ws hd
    · rfl

/-- Reduce `Lexer::number` past the optional minus sign and a run of digits
and dots: what remains is the loop sitting on the terminator. -/
theorem number_after_body (sgnl body tail : List Char) (l k : Nat)
    (hsgn : sgnl = ['-'] ∨ sgnl = [])
    (hbody : ∀ c ∈ body, ('0' ≤ c ∧ c ≤ '9') ∨ c = '.')
    (hdots : body.count '.' ≤ 1)
    (hhd : sgnl = [] → ∀ hd, (body ++ tail).head? = some hd → hd ≠ '-') :
    ∃ l2 k2, Lexer.number ⟨(sgnl ++ body) ++ tail, l, k⟩ =
      Lexer.numberLoop l k (sgnl ++ body) (decide ('.' ∈ body)) tail l2 k2 := by
  have hdots' : body.count '.' + (if false then 1 else 0) ≤ 1 := by
    simpa using hdots
  rcases hsgn with rfl | rfl
  · obtain ⟨l', k', hloop⟩ :=
      numberLoop_digits l k body ['-'] tail false (count '-' l k).1 (count '-' l k).2
        hbody hdots'
    refine ⟨l', k', ?_⟩
    have h1 : Lexer.number ⟨'-' :: (body ++ tail), l, k⟩ =
        Lexer.numberLoop l k ['-'] false (body ++ tail)
          (count '-' l k).1 (count '-' l k).2 := rfl
    have h2 : Lexer.numberLoop l k (['-'] ++ body) (false || decide ('.' ∈ body)) tail l' k' =
        Lexer.numberLoop l k (['-'] ++ body) (decide ('.' ∈ body)) tail l' k' := by
      rw [Bool.false_or]
    exact (h1.trans hloop).trans h2
  · rcases hb : body with _ | ⟨c0, bs⟩
    · subst hb
      have hne : ¬(LexState.peek ⟨(([] : List Char) ++ ([] : List Char)) ++ tail, l, k⟩ =
          some '-') := by
        intro hc
        exact hhd rfl '-' hc rfl
      refine ⟨l, k, ?_⟩
      simp only [Lexer.number]
      rw [if_neg hne]
      rfl
    · subst hb
      have hc0 : c0 ≠ '-' := by
        rcases hbody c0 (List.mem_cons_self c0 bs) with hd | rfl
        · exact digit_ne_minus hd
        · decide
      have hne : ¬(LexState.peek ⟨(([] : List Char) ++ (c0 :: bs)) ++ tail, l, k⟩ =
          some '-') := by
        intro hc
        have hc' : some c0 = some '-' := hc
        exact hc0 (Option.some.injEq c0 '-' ▸ hc')
      obtain ⟨l', k', hloop⟩ :=
        numberLoop_digits l k (c0 :: bs) [] tail false l k hbody hdots'
      refine ⟨l', k', ?_⟩
      have h1 : Lexer.number ⟨(([] : List Char) ++ (c0 :: bs)) ++ tail, l, k⟩ =
          Lexer.numberLoop l k [] false ((c0 :: bs) ++ tail) l k := by
        simp only [Lexer.number]
        rw [if_neg hne]
        rfl
      have h2 : Lexer.numberLoop l k (([] : List Char) ++ (c0 :: bs))
            (false || decide ('.' ∈ c0 :: bs)) tail l' k' =
          Lexer.numberLoop l k (([] : List Char) ++ (c0 :: bs))
            (decide ('.' ∈ c0 :: bs)) tail l' k' := by
        rw [Bool.false_or]
      exact (h1.trans hloop).trans h2

/-- Push a head condition through the numeric body: the sign test of
`Lexer::number` never fires after the body (body characters are digits or
dots), so only the empty-body case needs the explicit head hypothesis. -/
theorem pre_hhd (sgnl body tail : List Char)
    (hbody : ∀ c ∈ body, ('0' ≤ c ∧ c ≤ '9') ∨ c = '.')
    (hemp : sgnl = [] → body = [] → ∀ hd, tail.head? = some hd → hd ≠ '-') :
    sgnl = [] → ∀ hd, (body ++ tail).head? = some hd → hd ≠ '-' := by
  intro hs hd hhead
  rcases hb : body with _ | ⟨c0, bs⟩
  · subst hb
    exact hemp hs rfl hd hhead
  · subst hb
    have h1 : (some c0 : Option Char) = some hd := hhead
    injection h1 with h2
    rcases hbody c0 (List.mem_cons_self c0 bs) with hdg | hdot
    · exact h2 ▸ digit_ne_minus hdg
    · exact h2 ▸ (hdot ▸ (by decide : ('.' : Char) ≠ '-'))

/-- C2: when the number scanner consumes, after an optional leading minus,
only digits and at most one dot, and the scan ends at whitespace (consumed
and discarded) or at end of input, it returns `INTEGER` with the verbatim
lexeme if no dot was seen and `FLOAT` if one was, at the scan start position;
in particular `next` on `"12345"` yields `INTEGER "12345"` and on
`"-12345.12345"` yields `FLOAT "-12345.12345"`, both at (1,1). -/
theorem c2_number_success (sgnl body rest : List Char) (l k : Nat)
    (hsgn : sgnl = ['-'] ∨ sgnl = [])
    (hbody : ∀ c ∈ body, ('0' ≤ c ∧ c ≤ '9') ∨ c = '.')
    (hdots : body.count '.' ≤ 1)
    (hne : sgnl = [] → body ≠ [])
    (hterm : rest = [] ∨ ∃ w rs, rest = w :: rs ∧ rustIsWhitespace w = true) :
    ((Lexer.number ⟨(sgnl ++ body) ++ rest, l, k⟩).1 =
      .ok (if '.' ∈ body then Token.FLOAT (sgnl ++ body) l k
           else Token.INTEGER (sgnl ++ body) l k)) ∧
    (Lexer.number ⟨(sgnl ++ body) ++ rest, l, k⟩).2.rest = rest.tail ∧
    (Lexer.next ⟨("12345").data, 1, 1⟩).1 = .ok (.INTEGER ("12345").data 1 1) ∧
    (Lexer.next ⟨("-12345.12345").data, 1, 1⟩).1 =
      .ok (.FLOAT ("-12345.12345").data 1 1) := by
  have hhd := pre_hhd sgnl body rest hbody
    (fun hs hbe => absurd hbe (hne hs))
  obtain ⟨l2, k2, heq⟩ := number_after_body sgnl body rest l k hsgn hbody hdots hhd
  have hnws := pre_not_ws hsgn hbody
  refine ⟨?_, ?_, rfl, rfl⟩
  · rw [heq]
    rcases hterm with rfl | ⟨w, rs, rfl, hw⟩
    · simp only [Lexer.numberLoop]
      rw [rustTrim_of_not_ws hnws]
      by_cases hp : '.' ∈ body <;> simp [Token.number, hp]
    · simp only [Lexer.numberLoop]
      rw [if_neg (ws_not_digit hw), if_neg (ws_ne_dot hw), if_pos hw]
      rw [rustTrim_append_ws hw, rustTrim_of_not_ws hnws]
      by_cases hp : '.' ∈ body <;> simp [Token.number, hp]
  · rw [heq]
    rcases hterm with rfl | ⟨w, rs, rfl, hw⟩
    · rfl
    · simp only [Lexer.numberLoop]
      rw [if_neg (ws_not_digit hw), if_neg (ws_ne_dot hw), if_pos hw]
      rfl

/-- Witness for C2: scanning `"7 "` (digit then terminating space) and the
two verbatim examples. -/
theorem c2_witness :
    ((Lexer.number ⟨(([] : List Char) ++ ['7']) ++ [' '], 1, 1⟩).1 =
      .ok (if '.' ∈ ['7'] then Token.FLOAT (([] : List Char) ++ ['7']) 1 1
           else Token.INTEGER (([] : List Char) ++ ['7']) 1 1)) ∧
    (Lexer.number ⟨(([] : List Char) ++ ['7']) ++ [' '], 1, 1⟩).2.rest = [' '].tail ∧
    (Lexer.next ⟨("12345").data, 1, 1⟩).1 = .ok (.INTEGER ("12345").data 1 1) ∧
    (Lexer.next ⟨("-12345.12345").data, 1, 1⟩).1 =
      .ok (.FLOAT ("-12345.12345").data 1 1) :=
  c2_number_success [] ['7'] [' '] 1 1 (Or.inr rfl) (by decide) (by decide)
    (fun _ => by decide) (Or.inr ⟨' ', [], rfl, by decide⟩)

/-- C3: while scanning a number, a consumed character that is neither a digit
nor a dot nor whitespace produces the `INTEGER` or `FLOAT` error chosen by
whether a dot was already seen, with the lexeme up to and including the bad
character; a second dot always produces the `FLOAT` error with the lexeme
including that dot.  In particular `"12f345"` gives `INTEGER "12f"` and
`"12345.12f345"` gives `FLOAT "12345.12f"` as errors at (1,1). -/
theorem c3_number_error (sgnl body rest : List Char) (b : Char) (l k : Nat)
    (hsgn : sgnl = ['-'] ∨ sgnl = [])
    (hbody : ∀ c ∈ body, ('0' ≤ c ∧ c ≤ '9') ∨ c = '.')
    (hdots : body.count '.' ≤ 1)
    (hfirst : sgnl = [] → body = [] → b ≠ '-') :
    ((¬('0' ≤ b ∧ b ≤ '9') → b ≠ '.' → rustIsWhitespace b = false →
      (Lexer.number ⟨(sgnl ++ body) ++ b :: rest, l, k⟩).1 =
        .error (if '.' ∈ body then LexError.FLOAT ((sgnl ++ body) ++ [b]) l k
                else LexError.INTEGER ((sgnl ++ body) ++ [b]) l k)) ∧
     (body.count '.' = 1 →
      (Lexer.number ⟨(sgnl ++ body) ++ '.' :: rest, l, k⟩).1 =
        .error (LexError.FLOAT ((sgnl ++ body) ++ ['.']) l k))) ∧
    (Lexer.next ⟨("12f345").data, 1, 1⟩).1 = .error (.INTEGER ("12f").data 1 1) ∧
    (Lexer.next ⟨("12345.12f345").data, 1, 1⟩).1 =
      .error (.FLOAT ("12345.12f").data 1 1) := by
  refine ⟨⟨?_, ?_⟩, rfl, rfl⟩
  · intro hnd hndot hnws
    have hhd := pre_hhd sgnl body (b :: rest) hbody
      (fun hs hbe hd hhd' => by
        have h1 : (some b : Option Char) = some hd := hhd'
        injection h1 with h2
        exact h2 ▸ hfirst hs hbe)
    obtain ⟨l2, k2, heq⟩ :=
      number_after_body sgnl body (b :: rest) l k hsgn hbody hdots hhd
    rw [heq]
    simp only [Lexer.numberLoop]
    rw [if_neg hnd, if_neg hndot, if_neg (by simp [hnws] : ¬(rustIsWhitespace b = true))]
    by_cases hp : '.' ∈ body <;> simp [LexError.number, hp]
  · intro hc1
    have hhd := pre_hhd sgnl body ('.' :: rest) hbody
      (fun _ _ hd hhd' => by
        have h1 : (some '.' : Option Char) = some hd := hhd'
        injection h1 with h2
        exact h2 ▸ (by decide : ('.' : Char) ≠ '-'))
    obtain ⟨l2, k2, heq⟩ :=
      number_after_body sgnl body ('.' :: rest) l k hsgn hbody hdots hhd
    rw [heq]
    have hflag : decide ('.' ∈ body) = true := by
      rw [decide_eq_true_eq]
      have hpos : 0 < body.count '.' := by omega
      exact List.count_pos_iff.mp hpos
    simp only [Lexer.numberLoop, hflag]
    simp

/-- Witness for C3: scanning `"1x"` (bad character after one digit), scanning
`"1.2."` (second dot), and the two verbatim examples. -/
theorem c3_witness :
    ((¬('0' ≤ 'x' ∧ 'x' ≤ '9') → 'x' ≠ '.' → rustIsWhitespace 'x' = false →
      (Lexer.number ⟨(([] : List Char) ++ ['1']) ++ 'x' :: [], 1, 1⟩).1 =
        .error (if '.' ∈ ['1'] then LexError.FLOAT ((([] : List Char) ++ ['1']) ++ ['x']) 1 1
                else LexError.INTEGER ((([] : List Char) ++ ['1']) ++ ['x']) 1 1)) ∧
     (List.count '.' ['1'] = 1 →
      (Lexer.number ⟨(([] : List Char) ++ ['1']) ++ '.' :: [], 1, 1⟩).1 =
        .error (LexError.FLOAT ((([] : List Char) ++ ['1']) ++ ['.']) 1 1))) ∧
    (Lexer.next ⟨("12f345").data, 1, 1⟩).1 = .error (.INTEGER ("12f").data 1 1) ∧
    (Lexer.next ⟨("12345.12f345").data, 1, 1⟩).1 =
      .error (.FLOAT ("12345.12f").data 1 1) :=
  c3_number_error [] ['1'] [] 'x' 1 1 (Or.inr rfl) (by decide) (by decide)
    (fun _ _ => by decide)

/-! ### The string scanner -/

theorem stringLoop_items (sl sc : Nat) :
    ∀ (items : List StrItem) (acc tail : List Char) (l k : Nat),
      (∀ i ∈ items, i.ok = true) →
      ∃ l' k', Lexer.stringLoop sl sc acc false (itemsChars items ++ tail) l k =
        Lexer.stringLoop sl sc (acc ++ itemsText items) false tail l' k' := by
  intro items
  induction items with
  | nil =>
    intro acc tail l k _
    exact ⟨l, k, by simp [itemsChars, itemsText]⟩
  | cons i is ih =>
    intro acc tail l k hok
    have hok' : ∀ j ∈ is, j.ok = true := fun j hj => hok j (List.mem_cons_of_mem i hj)
    rcases i with c | c
    · obtain ⟨l', k', hloop⟩ :=
        ih (acc ++ [c]) tail
          (count c (count '\\' l k).1 (count '\\' l k).2).1
          (count c (count '\\' l k).1 (count '\\' l k).2).2 hok'
      refine ⟨l', k', ?_⟩
      have hstep : Lexer.stringLoop sl sc acc false ('\\' :: c :: (itemsChars is ++ tail)) l k =
          Lexer.stringLoop sl sc (acc ++ [c]) false (itemsChars is ++ tail)
            (count c (count '\\' l k).1 (count '\\' l k).2).1
            (count c (count '\\' l k).1 (count '\\' l k).2).2 := rfl
      have hlist : acc ++ [c] ++ itemsText is = acc ++ itemsText (StrItem.esc c :: is) := by
        simp [itemsText, StrItem.payload, List.append_assoc]
      exact (hstep.trans hloop).trans (by rw [hlist])
    · have hcs : c ≠ '\\' ∧ c ≠ '\n' ∧ c ≠ '\"' := by
        have h := hok (StrItem.plain c) (List.mem_cons_self _ is)
        simpa [StrItem.ok, Bool.and_eq_true, decide_eq_true_eq, and_assoc] using h
      obtain ⟨l', k', hloop⟩ :=
        ih (acc ++ [c]) tail (count c l k).1 (count c l k).2 hok'
      refine ⟨l', k', ?_⟩
      have hstep : Lexer.stringLoop sl sc acc false (c :: (itemsChars is ++ tail)) l k =
          Lexer.stringLoop sl sc (acc ++ [c]) false (itemsChars is ++ tail)
            (count c l k).1 (count c l k).2 := by
        simp only [Lexer.stringLoop]
        rw [if_neg hcs.1, if_neg hcs.2.1, if_neg hcs.2.2]
      have hlist : acc ++ [c] ++ itemsText is = acc ++ itemsText (StrItem.plain c :: is) := by
        simp [itemsText, StrItem.payload, List.append_assoc]
      exact (hstep.trans hloop).trans (by rw [hlist])

/-- C4: a string scan that never reaches a closing quote -- the loop hits a
raw newline, end of input, or a backslash directly followed by end of input --
returns `UNTERMINATED` with exactly the text accumulated so far, at the
position of the opening quote. -/
theorem c4_unterminated_string (items : List StrItem) (tail : List Char) (l k : Nat)
    (hok : ∀ i ∈ items, i.ok = true)
    (htail : tail = [] ∨ (∃ r, tail = '\n' :: r) ∨ tail = ['\\']) :
    (Lexer.string ⟨'\"' :: (itemsChars items ++ tail), l, k⟩).1 =
      .error (.UNTERMINATED (itemsText items) l k) := by
  have h1 : Lexer.string ⟨'\"' :: (itemsChars items ++ tail), l, k⟩ =
      Lexer.stringLoop l k [] false (itemsChars items ++ tail)
        (count '\"' l k).1 (count '\"' l k).2 := rfl
  rw [h1]
  obtain ⟨l', k', hloop⟩ :=
    stringLoop_items l k items [] tail (count '\"' l k).1 (count '\"' l k).2 hok
  rw [hloop]
  rcases htail with rfl | ⟨r, rfl⟩ | rfl
  · rfl
  · rfl
  · rfl

/-- Witness for C4: the unterminated `"a` followed by a raw newline. -/
theorem c4_witness :
    (Lexer.string ⟨'\"' :: (itemsChars [StrItem.plain 'a'] ++ ['\n']), 1, 1⟩).1 =
      .error (.UNTERMINATED (itemsText [StrItem.plain 'a']) 1 1) :=
  c4_unterminated_string [StrItem.plain 'a'] ['\n'] 1 1 (by decide)
    (Or.inr (Or.inl ⟨[], rfl⟩))

/-- C5: inside a string scan every backslash appends the immediately following
character verbatim, every other character except the quote and a raw newline
is appended verbatim, and a closing quote succeeds with the accumulated text
at the opening quote position; concretely, `next` on the Rust test input
yields `STRING` of quote-Hello-quote-comma-space-world!-newline at (1,1). -/
theorem c5_string_success (items : List StrItem) (rest : List Char) (l k : Nat)
    (hok : ∀ i ∈ items, i.ok = true) :
    ((Lexer.string ⟨'\"' :: (itemsChars items ++ '\"' :: rest), l, k⟩).1 =
      .ok (.STRING (itemsText items) l k)) ∧
    (Lexer.next ⟨("\"\\\"Hello\\\", world!\\\n\"").data, 1, 1⟩).1 =
      .ok (.STRING ("\"Hello\", world!\n").data 1 1) := by
  constructor
  · have h1 : Lexer.string ⟨'\"' :: (itemsChars items ++ '\"' :: rest), l, k⟩ =
        Lexer.stringLoop l k [] false (itemsChars items ++ '\"' :: rest)
          (count '\"' l k).1 (count '\"' l k).2 := rfl
    rw [h1]
    obtain ⟨l', k', hloop⟩ :=
      stringLoop_items l k items [] ('\"' :: rest) (count '\"' l k).1 (count '\"' l k).2 hok
    rw [hloop]
    rfl
  · rfl

/-- Witness for C5: the one-character string `"H"`. -/
theorem c5_witness :
    ((Lexer.string ⟨'\"' :: (itemsChars [StrItem.plain 'H'] ++ '\"' :: []), 1, 1⟩).1 =
      .ok (.STRING (itemsText [StrItem.plain 'H']) 1 1)) ∧
    (Lexer.next ⟨("\"\\\"Hello\\\", world!\\\n\"").data, 1, 1⟩).1 =
      .ok (.STRING ("\"Hello\", world!\n").data 1 1) :=
  c5_string_success [StrItem.plain 'H'] [] 1 1 (by decide)

/-! ### The identifier scanner -/

theorem identLoop_good (sl sc : Nat) :
    ∀ (body acc rest : List Char) (l k : Nat),
      (∀ c ∈ body, Lexer.invalid.contains c = false ∧ rustIsWhitespace c = false) →
      ∃ l' k', Lexer.identLoop sl sc acc (body ++ rest) l k =
        Lexer.identLoop sl sc (acc ++ body) rest l' k' := by
  intro body
  induction body with
  | nil =>
    intro acc rest l k _
    exact ⟨l, k, by simp⟩
  | cons c bs ih =>
    intro acc rest l k hbody
    obtain ⟨hinv, hws⟩ := hbody c (List.mem_cons_self c bs)
    obtain ⟨l', k', hloop⟩ :=
      ih (acc ++ [c]) rest (count c l k).1 (count c l k).2
        (fun x hx => hbody x (List.mem_cons_of_mem c hx))
    refine ⟨l', k', ?_⟩
    have hstep : Lexer.identLoop sl sc acc ((c :: bs) ++ rest) l k =
        Lexer.identLoop sl sc (acc ++ [c]) (bs ++ rest) (count c l k).1 (count c l k).2 := by
      simp only [List.cons_append, Lexer.identLoop, List.append_eq]
      rw [if_neg (fun h => Bool.false_ne_true (hinv.symm.trans h)),
        if_neg (fun h => Bool.false_ne_true (hws.symm.trans h))]
    have hlist : acc ++ [c] ++ bs = acc ++ (c :: bs) := by
      simp [List.append_assoc]
    exact (hstep.trans hloop).trans (by rw [hlist])

/-- C6: during an identifier scan, consuming any character of the disallowed
set fails at once with the `IDENT` error carrying exactly the text accumulated
before that character (which is consumed but not appended), at the scan start
position. -/
theorem c6_ident_invalid_char (body rest : List Char) (bad : Char) (l k : Nat)
    (hbody : ∀ c ∈ body, Lexer.invalid.contains c = false ∧ rustIsWhitespace c = false)
    (hbad : Lexer.invalid.contains bad = true) :
    (Lexer.ident ⟨body ++ bad :: rest, l, k⟩).1 = .error (.IDENT body l k) ∧
    (Lexer.ident ⟨body ++ bad :: rest, l, k⟩).2.rest = rest := by
  have h1 : Lexer.ident ⟨body ++ bad :: rest, l, k⟩ =
      Lexer.identLoop l k [] (body ++ bad :: rest) l k := rfl
  obtain ⟨l', k', hloop⟩ := identLoop_good l k body [] (bad :: rest) l k hbody
  have hstep : Lexer.identLoop l k ([] ++ body) (bad :: rest) l' k' =
      (.error (.IDENT ([] ++ body) l k),
        ⟨rest, (count bad l' k').1, (count bad l' k').2⟩) := by
    simp only [Lexer.identLoop]
    rw [if_pos hbad]
  rw [h1, hloop, hstep]
  exact ⟨by simp, rfl⟩

/-- Witness for C6: the identifier `a` interrupted by `#`. -/
theorem c6_witness :
    ((Lexer.ident ⟨['a'] ++ '#' :: [], 1, 1⟩).1 = .error (.IDENT ['a'] 1 1)) ∧
    (Lexer.ident ⟨['a'] ++ '#' :: [], 1, 1⟩).2.rest = [] :=
  c6_ident_invalid_char ['a'] [] '#' 1 1 (by decide) (by decide)

/-! ### Dispatch on a character no token can start -/

/-- C7: when the lookahead after the whitespace skip can start no token,
`next` returns `INVALID` carrying that character and the current position, and
the whole source state is exactly the post-skip state: nothing was consumed,
so a subsequent peek still yields the offending character. -/
theorem c7_invalid_character_no_consume (s : LexState) (c : Char)
    (hpeek : (Lexer.consume_whitespace s.rest s.line s.chr).peek = some c)
    (h1 : c ≠ '(') (h2 : c ≠ ')') (h3 : c ≠ ';') (h4 : c ≠ '\"')
    (h5 : ¬('0' ≤ c ∧ c ≤ '9')) (h6 : c ≠ '-') (h7 : c ≠ '.')
    (h8 : ¬('A' ≤ c ∧ c ≤ 'z')) :
    Lexer.next s =
      (.error (.INVALID c (Lexer.consume_whitespace s.rest s.line s.chr).line
          (Lexer.consume_whitespace s.rest s.line s.chr).chr),
        Lexer.consume_whitespace s.rest s.line s.chr) ∧
    ((Lexer.next s).2).peek = some c := by
  have h567 : ¬(('0' ≤ c ∧ c ≤ '9') ∨ c = '-' ∨ c = '.') := by
    rintro (h | h | h)
    exacts [h5 h, h6 h, h7 h]
  have hmain : Lexer.next s =
      (.error (.INVALID c (Lexer.consume_whitespace s.rest s.line s.chr).line
          (Lexer.consume_whitespace s.rest s.line s.chr).chr),
        Lexer.consume_whitespace s.rest s.line s.chr) := by
    simp only [Lexer.next, hpeek]
    simp only [Lexer.read_token, hpeek]
    rw [if_neg h1, if_neg h2, if_neg h3, if_neg h4, if_neg h567, if_neg h8]
  exact ⟨hmain, by rw [hmain]; exact hpeek⟩

/-- Witness for C7: a single space then `#`. -/
theorem c7_witness :
    (Lexer.next ⟨[' ', '#'], 1, 1⟩ =
      (.error (.INVALID '#' (Lexer.consume_whitespace [' ', '#'] 1 1).line
          (Lexer.consume_whitespace [' ', '#'] 1 1).chr),
        Lexer.consume_whitespace [' ', '#'] 1 1)) ∧
    ((Lexer.next ⟨[' ', '#'], 1, 1⟩).2).peek = some '#' :=
  c7_invalid_character_no_consume ⟨[' ', '#'], 1, 1⟩ '#' rfl (by decide) (by decide)
    (by decide) (by decide) (by decide) (by decide) (by decide) (by decide)

/-! ### End of input on all-whitespace input -/

/-- C8 counterexample: the all-whitespace input consisting of a single newline
is consumed with the newline rule, so `next` reports `END` at line 2, column
1 -- but the claim predicts column `1 + 1 = 2`. -/
theorem c8_counterexample :
    (Lexer.next ⟨['\n'], 1, 1⟩).1 = .error (.END 2 1) ∧ (1 : Nat) ≠ 1 + 1 :=
  ⟨rfl, by decide⟩

/-- C8 (amended): for inputs consisting solely of non-newline whitespace
characters (including the empty input), the first `next` returns `END` at
line 1 and column equal to the count of consumed characters plus one; the
empty input gives line 1, column 1.  (The original claim, with newlines
allowed, fails: a consumed newline resets the column instead of adding 1.) -/
theorem c8_end_of_input_amended (l : List Char)
    (h : ∀ c ∈ l, rustIsWhitespace c = true ∧ c ≠ '\n') :
    (Lexer.next ⟨l, 1, 1⟩).1 = .error (.END 1 (l.length + 1)) := by
  have hcw := cw_all_ws_no_newline l 1 1 h
  simp only [Lexer.next, hcw, LexState.peek]
  simp [Nat.add_comm]

/-- Witness for C8 (amended): two spaces end at line 1, column 3. -/
theorem c8_witness :
    (Lexer.next ⟨[' ', ' '], 1, 1⟩).1 = .error (.END 1 ([' ', ' '].length + 1)) :=
  c8_end_of_input_amended [' ', ' '] (by decide)

/-! ### Disallowed identifier characters inside the dispatch range -/

/-- C10: when the first character after the whitespace skip is `[`, `]` or a
backslash -- all inside the identifier dispatch range yet disallowed in
identifiers -- `next` enters the identifier scanner, consumes that character
and immediately returns the `IDENT` error with an empty partial lexeme at
that character's position (not the `INVALID` error). -/
theorem c10_bracket_dispatch_ident (pre rest : List Char) (c : Char) (l k : Nat)
    (hpre : ∀ x ∈ pre, rustIsWhitespace x = true)
    (hc : c = '[' ∨ c = ']' ∨ c = '\\') :
    Lexer.next ⟨pre ++ c :: rest, l, k⟩ =
      (.error (.IDENT [] (Lexer.consume_whitespace pre l k).line
          (Lexer.consume_whitespace pre l k).chr),
        ⟨rest, (Lexer.consume_whitespace pre l k).line,
          (Lexer.consume_whitespace pre l k).chr + 1⟩) := by
  have hcnws : rustIsWhitespace c = false := by
    rcases hc with rfl | rfl | rfl <;> rfl
  have hcw := cw_append pre (c :: rest) l k hpre
  have hcw2 := cw_not_ws c rest
    (Lexer.consume_whitespace pre l k).line (Lexer.consume_whitespace pre l k).chr hcnws
  simp only [Lexer.next, hcw, hcw2]
  rcases hc with rfl | rfl | rfl <;> rfl

/-- Witness for C10: a space then `[`. -/
theorem c10_witness :
    Lexer.next ⟨[' '] ++ '[' :: [], 1, 1⟩ =
      (.error (.IDENT [] (Lexer.consume_whitespace [' '] 1 1).line
          (Lexer.consume_whitespace [' '] 1 1).chr),
        ⟨[], (Lexer.consume_whitespace [' '] 1 1).line,
          (Lexer.consume_whitespace [' '] 1 1).chr + 1⟩) :=
  c10_bracket_dispatch_ident [' '] [] '[' 1 1 (by decide) (Or.inl rfl)

/-! ### Sanity checks

The following evaluations mirror unit tests of lexer.rs and the spec's
examples. -/

example : (Lexer.next ⟨[], 1, 1⟩).1 = .error (.END 1 1) := rfl
example : (Lexer.next ⟨['('], 1, 1⟩).1 = .ok (.LPAR 1 1) := rfl
example : (Lexer.next ⟨("12345").data, 1, 1⟩).1 = .ok (.INTEGER ("12345").data 1 1) := rfl
example : (Lexer.next ⟨("-12345.12345").data, 1, 1⟩).1 =
    .ok (.FLOAT ("-12345.12345").data 1 1) := rfl
example : (Lexer.next ⟨("12f345").data, 1, 1⟩).1 = .error (.INTEGER ("12f").data 1 1) := rfl
example : (Lexer.next ⟨("12345.12f345").data, 1, 1⟩).1 =
    .error (.FLOAT ("12345.12f").data 1 1) := rfl
example : (Lexer.next ⟨("\"\\\"Hello\\\", world!\\\n\"").data, 1, 1⟩).1 =
    .ok (.STRING ("\"Hello\", world!\n").data 1 1) := rfl
example : (Lexer.next ⟨['\n'], 1, 1⟩).1 = .error (.END 2 1) := rfl
example : (Lexer.next ⟨[' ', '['], 1, 1⟩).1 = .error (.IDENT [] 1 2) := rfl
example : (Lexer.next ⟨("12345.").data, 1, 1⟩).1 = .ok (.FLOAT ("12345.").data 1 1) := rfl
example : (Lexer.next ⟨("\n \n \"This is an \\\n unterminated string ()").data, 1, 1⟩).1 =
    .error (.UNTERMINATED ("This is an \n unterminated string ()").data 3 2) := rfl
example : (Lexer.next (Lexer.next ⟨("(    # )").data, 1, 1⟩).2).1 =
    .error (.INVALID '#' 1 6) := rfl
example : (Lexer.next (Lexer.next ⟨[')'], 1, 1⟩).2).1 = .error (.END 1 2) := rfl
example : (Lexer.next ⟨("; this is some code that does some stuff").data, 1, 1⟩).1 =
    .ok (.COMMENT ("; this is some code that does some stuff").data 1 1) := rfl
example : (Lexer.next ⟨("an-!@$%^&*-+=~?.ident").data, 1, 1⟩).1 =
    .ok (.IDENT ("an-!@$%^&*-+=~?.ident").data 1 1) := rfl

end RustScheme
